import Mathlib

/-!
Verification of the revpi process-image access library.

The development shallowly embeds the library's source:
* `src/picontrol/raw/raw.rs` — constants and record layouts;
* `src/picontrol/raw.rs` — the `PiControlRaw` wrapper (bounds checks,
  little-endian word transfer, name-length check, counter reset);
* `src/picontrol.rs` — the `PiControl` facade (`Value`, `get_value`,
  `set_value`);
* `revpi_macro/src/lib.rs` — the accessor generator;
* `revpi_rsc/src/lib.rs` and `revpi_rsc/src/util.rs` — the rsc
  field-record serializer and deserializer.

The kernel driver behind `/dev/piControl0` is not part of the repository;
its observable behaviour (bit/byte ioctl semantics, bounded positioned
reads and writes on the image file) is modelled from the specification and
the source's own interface documentation, with each such definition marked
`Modelled from the spec`.  Machine integers are embedded as `Nat` with
explicit `% 2 ^ w` at the points where the source truncates.  Fallible
calls return `Except`, and every wrapper call additionally reports the list
of requests it issued to the driver, so that "fails without issuing the
underlying transfer" is expressible.
-/

/-- Length of the processimage (`KB_PI_LEN` in `raw/raw.rs`). -/
def KB_PI_LEN : Nat := 4096

/-- Maximum device count (`REV_PI_DEV_CNT_MAX` in `raw/raw.rs`). -/
def REV_PI_DEV_CNT_MAX : Nat := 64

/-- Error type of the library (`PiControlError` in `picontrol.rs`).
`NulError` wraps an interior-nul failure from `CString::new`. -/
inductive PiControlError where
  | InvalidArgument (s : String)
  | DeviceNotFound (address : Nat)
  | NoVarEntries
  | IoError
  | NulError
deriving DecidableEq, Repr

/-- Outcome of a computation that may `panic!`. -/
inductive Outcome (α : Type) where
  | ok (a : α)
  | panic (msg : String)
deriving DecidableEq, Repr

/-- Monadic sequencing of `Outcome`: a panic aborts the computation. -/
def Outcome.bind {α β : Type} : Outcome α → (α → Outcome β) → Outcome β
  | .ok a, f => f a
  | .panic m, _ => .panic m

/-- Returns `true` iff the outcome is not a panic. -/
def Outcome.isOk {α : Type} : Outcome α → Bool
  | .ok _ => true
  | .panic _ => false

/-- The process image, a byte (as a `Nat < 256`) for every address. -/
def Img : Type := Nat → Nat

/-- One request issued to the driver or to the image file.  Wrapper calls
return the list of requests they issued so that "without issuing the
underlying transfer" can be stated. -/
inductive Req where
  | getValueR (address bit : Nat)
  | setValueR (address bit value : Nat)
  | readAtR (address len : Nat)
  | writeAtR (address : Nat) (bytes : List Nat)
  | findVarR (name : List Nat)
  | dioResetR (address bitfield : Nat)
deriving DecidableEq, Repr

/-- Write the bit `bit` of the byte `byte` to `v`, leaving the other bits
unchanged (`255 ^^^ (1 <<< bit)` is the 8-bit mask clearing the bit). -/
def setBitByte (byte bit : Nat) (v : Bool) : Nat :=
  cond v (byte ||| (1 <<< bit)) (byte &&& (255 ^^^ (1 <<< bit)))

/-- Modelled from the spec: the driver's `KB_GET_VALUE` ioctl (spec §4.1
`get_bit_or_byte`): a bit selector 0–7 reads that bit of the byte at
`address` as `0` or `1`; a selector ≥ 8 reads the whole byte.  The kernel
module itself is not part of the repository. -/
def imgGetValue (img : Img) (address bit : Nat) : Nat :=
  if 8 ≤ bit then img address
  else cond ((img address).testBit bit) 1 0

/-- Modelled from the spec: the driver's `KB_SET_VALUE` ioctl (spec §4.1
`set_bit_or_byte`): a bit selector 0–7 writes that bit of the byte at
`address` (any non-zero value sets it); a selector ≥ 8 replaces the whole
byte.  The kernel module itself is not part of the repository. -/
def imgSetValue (img : Img) (address bit value : Nat) : Img :=
  fun x =>
    if x = address then
      if 8 ≤ bit then value else setBitByte (img address) bit (value ≠ 0)
    else img x

/-- Overlay `bytes` on the image starting at `address`. -/
def writeBytes (img : Img) (address : Nat) (bytes : List Nat) : Img :=
  fun x =>
    if address ≤ x ∧ x < address + bytes.length then bytes.getD (x - address) 0
    else img x

/-- Modelled from the spec: a positioned read of `n` bytes from the image
file (`File::read_exact_at` on `/dev/piControl0`); the transfer itself
fails beyond the image bounds, surfaced as an I/O failure (spec §4.2). -/
def imgReadAt (img : Img) (address n : Nat) : Except PiControlError (List Nat) :=
  if address + n ≤ KB_PI_LEN then .ok ((List.range n).map fun i => img (address + i))
  else .error .IoError

/-- Modelled from the spec: a positioned write of `bytes` to the image file
(`File::write_all_at` on `/dev/piControl0`); the transfer itself fails
beyond the image bounds, surfaced as an I/O failure (spec §4.2). -/
def imgWriteAt (img : Img) (address : Nat) (bytes : List Nat) :
    Except PiControlError Img :=
  if address + bytes.length ≤ KB_PI_LEN then .ok (writeBytes img address bytes)
  else .error .IoError

/-- Little-endian bytes of a 16-bit value (`u16::to_le_bytes`). -/
def u16ToLe (v : Nat) : List Nat := [v % 256, v / 256 % 256]

/-- Little-endian bytes of a 32-bit value (`u32::to_le_bytes`). -/
def u32ToLe (v : Nat) : List Nat :=
  [v % 256, v / 256 % 256, v / 65536 % 256, v / 16777216 % 256]

/-- Decode a little-endian byte list (`u16::from_le_bytes`,
`u32::from_le_bytes`). -/
def leToNat : List Nat → Nat
  | [] => 0
  | b :: bs => b + 256 * leToNat bs

namespace PiControlRaw

/-- Embeds `PiControlRaw::get_value` (raw.rs): bounds-check the address against
`KB_PI_LEN`, then issue the `KB_GET_VALUE` ioctl. -/
def get_value (img : Img) (address bit : Nat) :
    Except PiControlError Nat × List Req :=
  if address < KB_PI_LEN then
    (.ok (imgGetValue img address bit), [.getValueR address bit])
  else (.error (.InvalidArgument "address"), [])

/-- Embeds `PiControlRaw::set_value` (raw.rs): bounds-check the address against
`KB_PI_LEN`, then issue the `KB_SET_VALUE` ioctl; on success the new image
is returned. -/
def set_value (img : Img) (address bit value : Nat) :
    Except PiControlError Img × List Req :=
  if address < KB_PI_LEN then
    (.ok (imgSetValue img address bit value), [.setValueR address bit value])
  else (.error (.InvalidArgument "address"), [])

/-- Embeds `PiControlRaw::get_bit` (raw.rs): `get_value` with the bit number,
mapping the raw byte through `r >= 1`.  `Fin 8` embeds the `Bit` enum. -/
def get_bit (img : Img) (address : Nat) (bit : Fin 8) :
    Except PiControlError Bool × List Req :=
  ((get_value img address bit.val).1.map fun r => decide (1 ≤ r),
    (get_value img address bit.val).2)

/-- Embeds `PiControlRaw::get_byte` (raw.rs): `get_value` with the whole-byte
selector `8`. -/
def get_byte (img : Img) (address : Nat) :
    Except PiControlError Nat × List Req :=
  get_value img address 8

/-- Embeds `PiControlRaw::set_bit` (raw.rs): `set_value` with the bit number and
`value as u8`. -/
def set_bit (img : Img) (address : Nat) (bit : Fin 8) (value : Bool) :
    Except PiControlError Img × List Req :=
  set_value img address bit.val (cond value 1 0)

/-- Embeds `PiControlRaw::set_byte` (raw.rs): `set_value` with the whole-byte
selector `8`. -/
def set_byte (img : Img) (address value : Nat) :
    Except PiControlError Img × List Req :=
  set_value img address 8 value

/-- Embeds `PiControlRaw::get_word` (raw.rs): positioned 2-byte read at `address`,
decoded with `u16::from_le_bytes`. -/
def get_word (img : Img) (address : Nat) :
    Except PiControlError Nat × List Req :=
  ((imgReadAt img address 2).map leToNat, [.readAtR address 2])

/-- Embeds `PiControlRaw::get_dword` (raw.rs): positioned 4-byte read at
`address`, decoded with `u32::from_le_bytes`. -/
def get_dword (img : Img) (address : Nat) :
    Except PiControlError Nat × List Req :=
  ((imgReadAt img address 4).map leToNat, [.readAtR address 4])

/-- Embeds `PiControlRaw::set_word` (raw.rs): positioned write of
`value.to_le_bytes()` at `address`. -/
def set_word (img : Img) (address value : Nat) :
    Except PiControlError Img × List Req :=
  (imgWriteAt img address (u16ToLe value), [.writeAtR address (u16ToLe value)])

/-- Embeds `PiControlRaw::set_dword` (raw.rs): positioned write of
`value.to_le_bytes()` at `address`. -/
def set_dword (img : Img) (address value : Nat) :
    Except PiControlError Img × List Req :=
  (imgWriteAt img address (u32ToLe value), [.writeAtR address (u32ToLe value)])

end PiControlRaw

/-- C2: the bit/byte accessors `get_bit`, `get_byte`, `set_bit` and
`set_byte` fail with `InvalidArgument "address"` without issuing the
underlying transfer whenever `KB_PI_LEN ≤ address`, and pass the bounds
check — issuing exactly the corresponding transfer request — whenever
`address < KB_PI_LEN`. -/
theorem raw_bit_byte_address_bounds (img : Img) (address : Nat) (bit : Fin 8)
    (v : Bool) (n : Nat) :
    (KB_PI_LEN ≤ address →
      PiControlRaw.get_bit img address bit =
        (.error (.InvalidArgument "address"), []) ∧
      PiControlRaw.get_byte img address =
        (.error (.InvalidArgument "address"), []) ∧
      PiControlRaw.set_bit img address bit v =
        (.error (.InvalidArgument "address"), []) ∧
      PiControlRaw.set_byte img address n =
        (.error (.InvalidArgument "address"), [])) ∧
    (address < KB_PI_LEN →
      (PiControlRaw.get_bit img address bit).2 = [.getValueR address bit.val] ∧
      (PiControlRaw.get_byte img address).2 = [.getValueR address 8] ∧
      (PiControlRaw.set_bit img address bit v).2 =
        [.setValueR address bit.val (cond v 1 0)] ∧
      (PiControlRaw.set_byte img address n).2 = [.setValueR address 8 n]) := by
  constructor
  · intro h
    have h' : ¬ address < KB_PI_LEN := by omega
    refine ⟨?_, ?_, ?_, ?_⟩ <;>
      simp [PiControlRaw.get_bit, PiControlRaw.get_byte, PiControlRaw.set_bit,
        PiControlRaw.set_byte, PiControlRaw.get_value, PiControlRaw.set_value,
        Except.map, h']
  · intro h
    refine ⟨?_, ?_, ?_, ?_⟩ <;>
      simp [PiControlRaw.get_bit, PiControlRaw.get_byte, PiControlRaw.set_bit,
        PiControlRaw.set_byte, PiControlRaw.get_value, PiControlRaw.set_value, h]

/-- Witness for C2 at the boundary: at `address = 4096` every accessor
fails with `InvalidArgument "address"` and no transfer, and at
`address = 4095 = KB_PI_LEN - 1` the transfer is attempted. -/
theorem raw_bit_byte_address_bounds_witness :
    PiControlRaw.get_byte (fun _ => 0) 4096 =
      (.error (.InvalidArgument "address"), []) ∧
    (PiControlRaw.get_byte (fun _ => 0) 4095).2 = [.getValueR 4095 8] ∧
    (PiControlRaw.set_bit (fun _ => 0) 4095 2 true).2 = [.setValueR 4095 2 1] :=
  ⟨((raw_bit_byte_address_bounds (fun _ => 0) 4096 2 true 0).1
      (by decide)).2.1,
    ((raw_bit_byte_address_bounds (fun _ => 0) 4095 2 true 0).2
      (by decide)).2.1,
    ((raw_bit_byte_address_bounds (fun _ => 0) 4095 2 true 0).2
      (by decide)).2.2.1⟩

/-- Embeds `SPIVariable` (raw/raw.rs): result record of the find-variable ioctl.
`strVarName` holds the queried name's bytes. -/
structure SPIVariable where
  strVarName : List Nat
  i16uAddress : Nat
  i8uBit : Nat
  i16uLength : Nat
deriving DecidableEq, Repr

/-- Embeds `PiControlRaw::find_variable` (raw.rs): `name` is the bytes of the
`CStr` argument without the nul terminator, so `name.length + 1` is
`to_bytes_with_nul().len()`; the length is checked against 32 before the
ioctl.  `res` abstracts the driver's response after the wrapper's errno
mapping (`InvalidArgument "name"`, `NoVarEntries`, or the found record). -/
def PiControlRaw.find_variable (name : List Nat)
    (res : Except PiControlError SPIVariable) :
    Except PiControlError SPIVariable × List Req :=
  if name.length + 1 ≤ 32 then (res, [.findVarR name])
  else (.error (.InvalidArgument "length of name"), [])

/-- Embeds `PiControlRaw::dio_reset_counter` (raw.rs): the bitfield is checked to
be non-zero before the ioctl.  `res` abstracts the driver's response after
the wrapper's errno mapping. -/
def PiControlRaw.dio_reset_counter (dio_address bitfield : Nat)
    (res : Except PiControlError Unit) :
    Except PiControlError Unit × List Req :=
  if bitfield ≠ 0 then (res, [.dioResetR dio_address bitfield])
  else (.error (.InvalidArgument "bitfield"), [])

/-- C6: `find_variable` fails with `InvalidArgument` without issuing the
transfer whenever the name's encoding exceeds 31 bytes excluding the
terminator, and issues the transfer whenever the encoding including the
terminator is at most 32 bytes. -/
theorem find_variable_name_length (name : List Nat)
    (res : Except PiControlError SPIVariable) :
    (31 < name.length →
      PiControlRaw.find_variable name res =
        (.error (.InvalidArgument "length of name"), [])) ∧
    (name.length ≤ 31 →
      PiControlRaw.find_variable name res = (res, [.findVarR name])) := by
  constructor
  · intro h
    simp [PiControlRaw.find_variable]
    omega
  · intro h
    simp only [PiControlRaw.find_variable]
    rw [if_pos (by omega)]

/-- Witness for C6: a 32-byte name is rejected without a transfer, a
31-byte name reaches the driver. -/
theorem find_variable_name_length_witness :
    PiControlRaw.find_variable (List.replicate 32 65) (.error .NoVarEntries) =
      (.error (.InvalidArgument "length of name"), []) ∧
    PiControlRaw.find_variable (List.replicate 31 65) (.error .NoVarEntries) =
      (.error .NoVarEntries, [.findVarR (List.replicate 31 65)]) :=
  ⟨(find_variable_name_length (List.replicate 32 65)
      (.error .NoVarEntries)).1 (by decide),
    (find_variable_name_length (List.replicate 31 65)
      (.error .NoVarEntries)).2 (by decide)⟩

/-- C9: `dio_reset_counter` fails with `InvalidArgument` without issuing
the transfer when `bitfield = 0`, and issues the transfer whenever
`bitfield ≠ 0`. -/
theorem dio_reset_counter_bitfield (dio_address bitfield : Nat)
    (res : Except PiControlError Unit) :
    (bitfield = 0 →
      PiControlRaw.dio_reset_counter dio_address bitfield res =
        (.error (.InvalidArgument "bitfield"), [])) ∧
    (bitfield ≠ 0 →
      PiControlRaw.dio_reset_counter dio_address bitfield res =
        (res, [.dioResetR dio_address bitfield])) := by
  constructor
  · intro h
    simp [PiControlRaw.dio_reset_counter, h]
  · intro h
    simp [PiControlRaw.dio_reset_counter, h]

/-- Witness for C9 at `bitfield = 0` and `bitfield = 3`. -/
theorem dio_reset_counter_bitfield_witness :
    PiControlRaw.dio_reset_counter 32 0 (.ok ()) =
      (.error (.InvalidArgument "bitfield"), []) ∧
    PiControlRaw.dio_reset_counter 32 3 (.ok ()) =
      (.ok (), [.dioResetR 32 3]) :=
  ⟨(dio_reset_counter_bitfield 32 0 (.ok ())).1 rfl,
    (dio_reset_counter_bitfield 32 3 (.ok ())).2 (by decide)⟩

/-- Reading back `i < bytes.length` positions after an overlay yields the
overlay's byte. -/
theorem writeBytes_getD (img : Img) (address : Nat) (bytes : List Nat)
    (i : Nat) (h : i < bytes.length) :
    writeBytes img address bytes (address + i) = bytes.getD i 0 := by
  simp only [writeBytes]
  rw [if_pos (by omega)]
  have hi : address + i - address = i := by omega
  rw [hi]

/-- C5: `set_word`/`set_dword` write the value's little-endian byte
encoding at the address (reading the raw bytes back yields
`[v % 256, v / 256 % 256]` resp. the four little-endian bytes), and
`get_word`/`get_dword` decode the bytes at the address as little-endian. -/
theorem word_dword_little_endian (img : Img) (address v : Nat) :
    (address + 2 ≤ KB_PI_LEN →
      PiControlRaw.set_word img address v =
        (.ok (writeBytes img address (u16ToLe v)), [.writeAtR address (u16ToLe v)]) ∧
      imgReadAt (writeBytes img address (u16ToLe v)) address 2 =
        .ok [v % 256, v / 256 % 256] ∧
      (PiControlRaw.get_word img address).1 =
        .ok (img address + 256 * img (address + 1))) ∧
    (address + 4 ≤ KB_PI_LEN →
      PiControlRaw.set_dword img address v =
        (.ok (writeBytes img address (u32ToLe v)), [.writeAtR address (u32ToLe v)]) ∧
      imgReadAt (writeBytes img address (u32ToLe v)) address 4 =
        .ok [v % 256, v / 256 % 256, v / 65536 % 256, v / 16777216 % 256] ∧
      (PiControlRaw.get_dword img address).1 =
        .ok (img address + 256 * img (address + 1) + 65536 * img (address + 2) +
          16777216 * img (address + 3))) := by
  constructor
  · intro h
    refine ⟨?_, ?_, ?_⟩
    · simp only [PiControlRaw.set_word, imgWriteAt, u16ToLe, List.length]
      rw [if_pos (by omega)]
    · simp only [imgReadAt]
      rw [if_pos (by omega)]
      simp only [List.range_succ, List.range_zero, List.nil_append,
        List.cons_append, List.map_cons, List.map_nil]
      rw [writeBytes_getD img address (u16ToLe v) 0 (by simp [u16ToLe]),
        writeBytes_getD img address (u16ToLe v) 1 (by simp [u16ToLe])]
      simp [u16ToLe]
    · simp only [PiControlRaw.get_word, imgReadAt]
      rw [if_pos (by omega)]
      simp only [List.range_succ, List.range_zero, List.nil_append,
        List.cons_append, List.map_cons, List.map_nil, Except.map, leToNat]
      norm_num
  · intro h
    refine ⟨?_, ?_, ?_⟩
    · simp only [PiControlRaw.set_dword, imgWriteAt, u32ToLe, List.length]
      rw [if_pos (by omega)]
    · simp only [imgReadAt]
      rw [if_pos (by omega)]
      simp only [List.range_succ, List.range_zero, List.nil_append,
        List.cons_append, List.map_cons, List.map_nil]
      rw [writeBytes_getD img address (u32ToLe v) 0 (by simp [u32ToLe]),
        writeBytes_getD img address (u32ToLe v) 1 (by simp [u32ToLe]),
        writeBytes_getD img address (u32ToLe v) 2 (by simp [u32ToLe]),
        writeBytes_getD img address (u32ToLe v) 3 (by simp [u32ToLe])]
      simp [u32ToLe]
    · simp only [PiControlRaw.get_dword, imgReadAt]
      rw [if_pos (by omega)]
      simp only [List.range_succ, List.range_zero, List.nil_append,
        List.cons_append, List.map_cons, List.map_nil, Except.map, leToNat]
      norm_num
      ring

/-- Witness for C5: writing `0x1234` at address 10 stores bytes
`[0x34, 0x12]`, and writing `0xAABBCCDD` stores `[0xDD, 0xCC, 0xBB, 0xAA]`. -/
theorem word_dword_little_endian_witness :
    imgReadAt (writeBytes (fun _ => 0) 10 (u16ToLe 0x1234)) 10 2 =
      .ok [0x34, 0x12] ∧
    imgReadAt (writeBytes (fun _ => 0) 10 (u32ToLe 0xAABBCCDD)) 10 4 =
      .ok [0xDD, 0xCC, 0xBB, 0xAA] :=
  ⟨((word_dword_little_endian (fun _ => 0) 10 0x1234).1 (by decide)).2.1,
    ((word_dword_little_endian (fun _ => 0) 10 0xAABBCCDD).2 (by decide)).2.1⟩

/-- Writing a bit of a byte and testing the same position yields the
written value. -/
theorem testBit_setBitByte (byte bit : Nat) (h : bit < 8) (v : Bool) :
    (setBitByte byte bit v).testBit bit = v := by
  cases v with
  | true =>
      simp [setBitByte, Nat.testBit_lor, Nat.shiftLeft_eq,
        Nat.testBit_two_pow_self]
  | false =>
      have h255 : Nat.testBit 255 bit = true := by interval_cases bit <;> decide
      simp [setBitByte, Nat.testBit_land, Nat.testBit_xor, h255,
        Nat.shiftLeft_eq, Nat.testBit_two_pow_self]

/-- Reading the bit just written through the driver model yields the
written bit value. -/
theorem imgGetValue_imgSetValue_bit (img : Img) (address bit : Nat)
    (hb : bit < 8) (v : Bool) :
    imgGetValue (imgSetValue img address bit (cond v 1 0)) address bit =
      cond v 1 0 := by
  have h8 : ¬ 8 ≤ bit := by omega
  cases v <;> simp [imgGetValue, imgSetValue, h8, testBit_setBitByte _ _ hb]

/-- C7: for each of the four bit-lengths, a `set` at a valid address
followed by a `get` at the same (address, bit/selector) returns the value
that was written. -/
theorem set_get_round_trip (img : Img) (address : Nat) :
    (∀ (bit : Fin 8) (v : Bool), address < KB_PI_LEN →
      (PiControlRaw.set_bit img address bit v).1 =
        .ok (imgSetValue img address bit.val (cond v 1 0)) ∧
      (PiControlRaw.get_bit (imgSetValue img address bit.val (cond v 1 0))
        address bit).1 = .ok v) ∧
    (∀ v : Nat, v < 256 → address < KB_PI_LEN →
      (PiControlRaw.set_byte img address v).1 = .ok (imgSetValue img address 8 v) ∧
      (PiControlRaw.get_byte (imgSetValue img address 8 v) address).1 = .ok v) ∧
    (∀ v : Nat, v < 65536 → address + 2 ≤ KB_PI_LEN →
      (PiControlRaw.set_word img address v).1 =
        .ok (writeBytes img address (u16ToLe v)) ∧
      (PiControlRaw.get_word (writeBytes img address (u16ToLe v)) address).1 =
        .ok v) ∧
    (∀ v : Nat, v < 4294967296 → address + 4 ≤ KB_PI_LEN →
      (PiControlRaw.set_dword img address v).1 =
        .ok (writeBytes img address (u32ToLe v)) ∧
      (PiControlRaw.get_dword (writeBytes img address (u32ToLe v)) address).1 =
        .ok v) := by
  refine ⟨?_, ?_, ?_, ?_⟩
  · intro bit v h
    constructor
    · simp [PiControlRaw.set_bit, PiControlRaw.set_value, h]
    · simp only [PiControlRaw.get_bit, PiControlRaw.get_value]
      rw [if_pos h]
      simp only [Except.map]
      rw [imgGetValue_imgSetValue_bit img address bit.val bit.isLt v]
      cases v <;> simp
  · intro v hv h
    constructor
    · simp [PiControlRaw.set_byte, PiControlRaw.set_value, h]
    · simp only [PiControlRaw.get_byte, PiControlRaw.get_value]
      rw [if_pos h]
      simp [imgGetValue, imgSetValue]
  · intro v hv h
    constructor
    · simp only [PiControlRaw.set_word, imgWriteAt, u16ToLe, List.length]
      rw [if_pos (by omega)]
    · simp only [PiControlRaw.get_word, imgReadAt]
      rw [if_pos (by omega)]
      simp only [List.range_succ, List.range_zero, List.nil_append,
        List.cons_append, List.map_cons, List.map_nil, Except.map]
      rw [writeBytes_getD img address (u16ToLe v) 0 (by simp [u16ToLe]),
        writeBytes_getD img address (u16ToLe v) 1 (by simp [u16ToLe])]
      simp only [show (u16ToLe v).getD 0 0 = v % 256 from rfl,
        show (u16ToLe v).getD 1 0 = v / 256 % 256 from rfl, leToNat,
        Except.ok.injEq]
      omega
  · intro v hv h
    constructor
    · simp only [PiControlRaw.set_dword, imgWriteAt, u32ToLe, List.length]
      rw [if_pos (by omega)]
    · simp only [PiControlRaw.get_dword, imgReadAt]
      rw [if_pos (by omega)]
      simp only [List.range_succ, List.range_zero, List.nil_append,
        List.cons_append, List.map_cons, List.map_nil, Except.map]
      rw [writeBytes_getD img address (u32ToLe v) 0 (by simp [u32ToLe]),
        writeBytes_getD img address (u32ToLe v) 1 (by simp [u32ToLe]),
        writeBytes_getD img address (u32ToLe v) 2 (by simp [u32ToLe]),
        writeBytes_getD img address (u32ToLe v) 3 (by simp [u32ToLe])]
      simp only [show (u32ToLe v).getD 0 0 = v % 256 from rfl,
        show (u32ToLe v).getD 1 0 = v / 256 % 256 from rfl,
        show (u32ToLe v).getD 2 0 = v / 65536 % 256 from rfl,
        show (u32ToLe v).getD 3 0 = v / 16777216 % 256 from rfl, leToNat,
        Except.ok.injEq]
      omega

/-- Witness for C7: concrete round trips for all four bit-lengths on the
all-zero image. -/
theorem set_get_round_trip_witness :
    (PiControlRaw.get_bit (imgSetValue (fun _ => 0) 7 5 (cond true 1 0)) 7 5).1 =
      .ok true ∧
    (PiControlRaw.get_byte (imgSetValue (fun _ => 0) 7 8 42) 7).1 = .ok 42 ∧
    (PiControlRaw.get_word (writeBytes (fun _ => 0) 7 (u16ToLe 4660)) 7).1 =
      .ok 4660 ∧
    (PiControlRaw.get_dword (writeBytes (fun _ => 0) 7 (u32ToLe 2864434397)) 7).1 =
      .ok 2864434397 :=
  ⟨((set_get_round_trip (fun _ => 0) 7).1 5 true (by decide)).2,
    ((set_get_round_trip (fun _ => 0) 7).2.1 42 (by decide) (by decide)).2,
    ((set_get_round_trip (fun _ => 0) 7).2.2.1 4660 (by decide) (by decide)).2,
    ((set_get_round_trip (fun _ => 0) 7).2.2.2 2864434397 (by decide)
      (by decide)).2⟩

/-- Embeds `Value` (picontrol.rs): value that can be set or read from the RevPi. -/
inductive Value where
  | Bit (b : Bool)
  | Byte (n : Nat)
  | Word (n : Nat)
  | DWord (n : Nat)
deriving DecidableEq, Repr

/-- Embeds `Value::bitcnt` (picontrol.rs): number of bits the value occupies in
the processimage. -/
def Value.bitcnt : Value → Nat
  | .Bit _ => 1
  | .Byte _ => 8
  | .Word _ => 16
  | .DWord _ => 32

/-- Embeds `Bit::from::<u8>` (raw.rs): converts a byte to the `Bit` enum
(embedded as `Fin 8`), panicking when the value exceeds 7. -/
def bitFromU8 (v : Nat) : Outcome (Fin 8) :=
  if h : v < 8 then .ok ⟨v, h⟩ else .panic "integer out of range of enum"

namespace PiControl

/-- Embeds `PiControl::set_value` (picontrol.rs) after name resolution: `var` is
the `SPIVariable` the resolver returned for the name.  The resolved length
must equal the value's bit count, then the call dispatches on the value's
variant to the raw typed accessor. -/
def set_value (var : SPIVariable) (value : Value) (img : Img) :
    Outcome (Except PiControlError Img × List Req) :=
  if var.i16uLength = value.bitcnt then
    match value with
    | .Bit b =>
        (bitFromU8 var.i8uBit).bind fun bit =>
          .ok (PiControlRaw.set_bit img var.i16uAddress bit b)
    | .Byte n => .ok (PiControlRaw.set_byte img var.i16uAddress n)
    | .Word w => .ok (PiControlRaw.set_word img var.i16uAddress w)
    | .DWord d => .ok (PiControlRaw.set_dword img var.i16uAddress d)
  else .ok (.error (.InvalidArgument "value or str"), [])

/-- Embeds `PiControl::get_value` (picontrol.rs) after name resolution: dispatch
on the resolved bit length, wrapping the raw result in the matching
`Value` variant via `Value::from`; any other length panics. -/
def get_value (var : SPIVariable) (img : Img) :
    Outcome (Except PiControlError Value × List Req) :=
  if var.i16uLength = 1 then
    (bitFromU8 var.i8uBit).bind fun bit =>
      .ok ((PiControlRaw.get_bit img var.i16uAddress bit).1.map Value.Bit,
        (PiControlRaw.get_bit img var.i16uAddress bit).2)
  else if var.i16uLength = 8 then
    .ok ((PiControlRaw.get_byte img var.i16uAddress).1.map Value.Byte,
      (PiControlRaw.get_byte img var.i16uAddress).2)
  else if var.i16uLength = 16 then
    .ok ((PiControlRaw.get_word img var.i16uAddress).1.map Value.Word,
      (PiControlRaw.get_word img var.i16uAddress).2)
  else if var.i16uLength = 32 then
    .ok ((PiControlRaw.get_dword img var.i16uAddress).1.map Value.DWord,
      (PiControlRaw.get_dword img var.i16uAddress).2)
  else .panic "invalid bitlength from piControl"

end PiControl

/-- C3: `set_value` on a resolved field fails with
`InvalidArgument "value or str"` without performing any transfer whenever
the value's implied bit length differs from the resolved length, and
dispatches to the matching typed accessor exactly when they agree (for a
bit field with a bit position 0–7). -/
theorem facade_set_value_length_dispatch (var : SPIVariable) (img : Img) :
    (∀ value : Value, var.i16uLength ≠ value.bitcnt →
      PiControl.set_value var value img =
        .ok (.error (.InvalidArgument "value or str"), [])) ∧
    (∀ (b : Bool) (h8 : var.i8uBit < 8), var.i16uLength = 1 →
      PiControl.set_value var (.Bit b) img =
        .ok (PiControlRaw.set_bit img var.i16uAddress ⟨var.i8uBit, h8⟩ b)) ∧
    (∀ n : Nat, var.i16uLength = 8 →
      PiControl.set_value var (.Byte n) img =
        .ok (PiControlRaw.set_byte img var.i16uAddress n)) ∧
    (∀ w : Nat, var.i16uLength = 16 →
      PiControl.set_value var (.Word w) img =
        .ok (PiControlRaw.set_word img var.i16uAddress w)) ∧
    (∀ d : Nat, var.i16uLength = 32 →
      PiControl.set_value var (.DWord d) img =
        .ok (PiControlRaw.set_dword img var.i16uAddress d)) := by
  refine ⟨?_, ?_, ?_, ?_, ?_⟩
  · intro value h
    simp [PiControl.set_value, h]
  · intro b h8 hL
    simp only [PiControl.set_value, Value.bitcnt, hL, if_pos rfl]
    simp [bitFromU8, h8, Outcome.bind]
  · intro n hL
    simp [PiControl.set_value, Value.bitcnt, hL]
  · intro w hL
    simp [PiControl.set_value, Value.bitcnt, hL]
  · intro d hL
    simp [PiControl.set_value, Value.bitcnt, hL]

/-- Witness for C3: on a resolved 8-bit field, a `Word` value is rejected
with no transfer and a `Byte` value dispatches to `set_byte`. -/
theorem facade_set_value_length_dispatch_witness :
    PiControl.set_value ⟨[76], 0, 0, 8⟩ (.Word 7) (fun _ => 0) =
      .ok (.error (.InvalidArgument "value or str"), []) ∧
    PiControl.set_value ⟨[76], 0, 0, 8⟩ (.Byte 42) (fun _ => 0) =
      .ok (PiControlRaw.set_byte (fun _ => 0) 0 42) :=
  ⟨(facade_set_value_length_dispatch ⟨[76], 0, 0, 8⟩ (fun _ => 0)).1
      (.Word 7) (by decide),
    (facade_set_value_length_dispatch ⟨[76], 0, 0, 8⟩ (fun _ => 0)).2.2.1
      42 rfl⟩

/-- C4: `get_value` on a resolved field returns the `Value` variant
matching the resolved bit length — `Bit` for 1 (given a bit position 0–7),
`Byte` for 8, `Word` for 16, `DWord` for 32 — each wrapping the raw result
of the corresponding typed accessor, and panics on any other resolved bit
length. -/
theorem facade_get_value_dispatch (var : SPIVariable) (img : Img) :
    (∀ h8 : var.i8uBit < 8, var.i16uLength = 1 →
      PiControl.get_value var img =
        .ok ((PiControlRaw.get_bit img var.i16uAddress ⟨var.i8uBit, h8⟩).1.map
            Value.Bit,
          (PiControlRaw.get_bit img var.i16uAddress ⟨var.i8uBit, h8⟩).2)) ∧
    (var.i16uLength = 8 →
      PiControl.get_value var img =
        .ok ((PiControlRaw.get_byte img var.i16uAddress).1.map Value.Byte,
          (PiControlRaw.get_byte img var.i16uAddress).2)) ∧
    (var.i16uLength = 16 →
      PiControl.get_value var img =
        .ok ((PiControlRaw.get_word img var.i16uAddress).1.map Value.Word,
          (PiControlRaw.get_word img var.i16uAddress).2)) ∧
    (var.i16uLength = 32 →
      PiControl.get_value var img =
        .ok ((PiControlRaw.get_dword img var.i16uAddress).1.map Value.DWord,
          (PiControlRaw.get_dword img var.i16uAddress).2)) ∧
    (var.i16uLength ≠ 1 → var.i16uLength ≠ 8 → var.i16uLength ≠ 16 →
      var.i16uLength ≠ 32 →
      PiControl.get_value var img = .panic "invalid bitlength from piControl") := by
  refine ⟨?_, ?_, ?_, ?_, ?_⟩
  · intro h8 hL
    simp only [PiControl.get_value, hL, if_pos rfl]
    simp [bitFromU8, h8, Outcome.bind]
  · intro hL
    simp [PiControl.get_value, hL]
  · intro hL
    simp [PiControl.get_value, hL]
  · intro hL
    simp [PiControl.get_value, hL]
  · intro h1 h8 h16 h32
    simp [PiControl.get_value, h1, h8, h16, h32]

/-- Witness for C4: a resolved 1-bit field at bit 3 yields a `Value.Bit`
wrapping `get_bit`, and a resolved 13-bit field panics. -/
theorem facade_get_value_dispatch_witness :
    PiControl.get_value ⟨[76], 5, 3, 1⟩ (fun _ => 0) =
      .ok ((PiControlRaw.get_bit (fun _ => 0) 5 ⟨3, by decide⟩).1.map Value.Bit,
        (PiControlRaw.get_bit (fun _ => 0) 5 ⟨3, by decide⟩).2) ∧
    PiControl.get_value ⟨[76], 5, 3, 13⟩ (fun _ => 0) =
      .panic "invalid bitlength from piControl" :=
  ⟨(facade_get_value_dispatch ⟨[76], 5, 3, 1⟩ (fun _ => 0)).1 (by decide) rfl,
    (facade_get_value_dispatch ⟨[76], 5, 3, 13⟩ (fun _ => 0)).2.2.2.2
      (by decide) (by decide) (by decide) (by decide)⟩

/-- Embeds `SDeviceInfo` (raw/raw.rs): device information record. -/
structure SDeviceInfo where
  i8uAddress : Nat
  i32uSerialNumber : Nat
  i16uModuleType : Nat
  i16uHW_Revision : Nat
  i16uSW_Major : Nat
  i16uSW_Minor : Nat
  i32uSVN_Revision : Nat
  i16uInputLength : Nat
  i16uOutputLength : Nat
  i16uConfigLength : Nat
  i16uBaseOffset : Nat
  i16uInputOffset : Nat
  i16uOutputOffset : Nat
  i16uConfigOffset : Nat
  i16uFirstEntry : Nat
  i8uModuleState : Nat
  i8uActive : Nat
  i8uReserve : List Nat
deriving DecidableEq, Repr

/-- An all-zero `SDeviceInfo` (`SDeviceInfo::default`). -/
def SDeviceInfo.zero : SDeviceInfo :=
  ⟨0, 0, 0, 0, 0, 0, 0, 0, 0, 0, 0, 0, 0, 0, 0, 0, 0, List.replicate 30 0⟩

/-- Embeds `PiControlRaw::get_device_info_list` (raw.rs): the driver succeeds and
writes `devs` (so the reported count is `devs.length`); the code then runs
`assert!(cnt > REV_PI_DEV_CNT_MAX, "cnt was .., which is larger than ..")`,
which panics exactly when the condition `cnt > 64` is FALSE, and otherwise
sets the vector's length to `cnt` and returns it. -/
def get_device_info_list (devs : List SDeviceInfo) :
    Outcome (List SDeviceInfo) :=
  if devs.length > REV_PI_DEV_CNT_MAX then .ok devs
  else .panic "cnt was larger than REV_PI_DEV_CNT_MAX"

/-- C1 (code bug): the source's assertion is inverted.  With the driver
reporting one device — a count well within the maximum — the call panics,
and with the driver reporting 65 devices — more than the maximum of 64 —
the call returns the over-length 65-element collection instead of
signalling a protocol fault. -/
theorem device_info_list_assert_inverted :
    get_device_info_list (List.replicate 1 SDeviceInfo.zero) =
      .panic "cnt was larger than REV_PI_DEV_CNT_MAX" ∧
    (List.replicate 1 SDeviceInfo.zero).length ≤ REV_PI_DEV_CNT_MAX ∧
    get_device_info_list (List.replicate 65 SDeviceInfo.zero) =
      .ok (List.replicate 65 SDeviceInfo.zero) ∧
    REV_PI_DEV_CNT_MAX < (List.replicate 65 SDeviceInfo.zero).length := by
  refine ⟨?_, by decide, ?_, by decide⟩
  · rfl
  · rfl

/-- Embeds `InOutMem` (revpi_rsc/src/lib.rs): one field record of the `inp`,
`out` or `mem` collection of a device in an rsc configuration file. -/
structure InOutMem where
  name : String
  default : Nat
  bit_length : Nat
  offset : Nat
  exported : Bool
  sort_pos : Nat
  comment : String
  bit_position : Option Nat
deriving DecidableEq, Repr

/-- Embeds `Device` (revpi_rsc/src/lib.rs): one device of an rsc configuration.
The `BTreeMap<u64, InOutMem>` collections are embedded as association
lists whose order is the map's ascending-key iteration order; the opaque
`extend` JSON subtree carries no data the library reads and is omitted. -/
structure Device where
  guid : String
  id : String
  dev_type : String
  product_type : Nat
  position : Nat
  name : String
  bmk : String
  inp_variant : Nat
  out_variant : Nat
  comment : String
  offset : Nat
  inp : List (Nat × InOutMem)
  out : List (Nat × InOutMem)
  mem : List (Nat × InOutMem)
  active : Option Bool
deriving DecidableEq, Repr

/-- Embeds `BTreeMap::values`: the entries' values in ascending key order. -/
def btValues {α : Type} (m : List (Nat × α)) : List α := m.map Prod.snd

/-- Which raw accessor pair a generated function binds
(`get_bit`/`set_bit`, …, in revpi_macro). -/
inductive AccKind where
  | bit
  | byte
  | word
  | dword
deriving DecidableEq, Repr

/-- One function emitted by the generator: setter flag, function name,
the address literal baked into the body, the bound accessor kind, and the
bit-position literal for bit fields. -/
structure Accessor where
  isSet : Bool
  name : String
  address : Nat
  kind : AccKind
  bitPos : Option Nat
deriving DecidableEq, Repr

/-- Embeds `get_fn` (revpi_macro/src/lib.rs): emit the getter of one field; the
address literal is `(mod_offset + item.offset) as u16`; a bit field reads
its `bit_position` (panicking if absent), and a bit length outside
1/8/16/32 panics. -/
def get_fn (mod_offset : Nat) (item : InOutMem) : Outcome Accessor :=
  if item.bit_length = 1 then
    match item.bit_position with
    | some bp =>
        .ok ⟨false, "get_" ++ item.name, (mod_offset + item.offset) % 65536,
          .bit, some bp⟩
    | none => .panic "called Option unwrap on a None value"
  else if item.bit_length = 8 then
    .ok ⟨false, "get_" ++ item.name, (mod_offset + item.offset) % 65536,
      .byte, none⟩
  else if item.bit_length = 16 then
    .ok ⟨false, "get_" ++ item.name, (mod_offset + item.offset) % 65536,
      .word, none⟩
  else if item.bit_length = 32 then
    .ok ⟨false, "get_" ++ item.name, (mod_offset + item.offset) % 65536,
      .dword, none⟩
  else .panic "invalid bitlength"

/-- Embeds `set_fn` (revpi_macro/src/lib.rs): emit the setter of one field,
mirroring `get_fn`. -/
def set_fn (mod_offset : Nat) (item : InOutMem) : Outcome Accessor :=
  if item.bit_length = 1 then
    match item.bit_position with
    | some bp =>
        .ok ⟨true, "set_" ++ item.name, (mod_offset + item.offset) % 65536,
          .bit, some bp⟩
    | none => .panic "called Option unwrap on a None value"
  else if item.bit_length = 8 then
    .ok ⟨true, "set_" ++ item.name, (mod_offset + item.offset) % 65536,
      .byte, none⟩
  else if item.bit_length = 16 then
    .ok ⟨true, "set_" ++ item.name, (mod_offset + item.offset) % 65536,
      .word, none⟩
  else if item.bit_length = 32 then
    .ok ⟨true, "set_" ++ item.name, (mod_offset + item.offset) % 65536,
      .dword, none⟩
  else .panic "invalid bitlength"

/-- Traverse a list with a panicking function, keeping the emitted items
in order; a panic aborts the traversal. -/
def mapO {α β : Type} (f : α → Outcome β) : List α → Outcome (List β)
  | [] => .ok []
  | a :: l => (f a).bind fun b => (mapO f l).bind fun bs => .ok (b :: bs)

/-- Getter followed by setter of one `out`/`mem` field. -/
def getSetFns (mod_offset : Nat) (item : InOutMem) : Outcome (List Accessor) :=
  (get_fn mod_offset item).bind fun g =>
    (set_fn mod_offset item).bind fun s => .ok [g, s]

/-- The functions `from_json` emits for one device: getters for every
`inp` field, then getter+setter for every `out` field, then getter+setter
for every `mem` field. -/
def devFns (d : Device) : Outcome (List Accessor) :=
  (mapO (get_fn d.offset) (btValues d.inp)).bind fun gi =>
    (mapO (getSetFns d.offset) (btValues d.out)).bind fun go =>
      (mapO (getSetFns d.offset) (btValues d.mem)).bind fun gm =>
        .ok (gi ++ go.flatten ++ gm.flatten)

/-- Embeds `from_json` (revpi_macro/src/lib.rs): iterate the devices in order and
concatenate each device's emitted functions. -/
def from_json (devices : List Device) : Outcome (List Accessor) :=
  (mapO devFns devices).bind fun l => .ok l.flatten

/-- The fields of a device the generator visits. -/
def devFields (d : Device) : List InOutMem :=
  btValues d.inp ++ btValues d.out ++ btValues d.mem

/-- A field record the generator accepts: bit length 1 with a present bit
position, or bit length 8, 16 or 32. -/
def validField (i : InOutMem) : Prop :=
  (i.bit_length = 1 ∧ i.bit_position.isSome = true) ∨ i.bit_length = 8 ∨
    i.bit_length = 16 ∨ i.bit_length = 32

instance (i : InOutMem) : Decidable (validField i) := by
  unfold validField
  infer_instance

/-- Follows the claim: the accessor kind selected by a bit length. -/
def specKind (bl : Nat) : AccKind :=
  if bl = 1 then .bit else if bl = 8 then .byte
  else if bl = 16 then .word else .dword

/-- Follows the claim: the getter of a field, with the address literal
`device_base_offset + field_offset_within_device` truncated to 16 bits. -/
def specGetter (base : Nat) (i : InOutMem) : Accessor :=
  ⟨false, "get_" ++ i.name, (base + i.offset) % 65536, specKind i.bit_length,
    if i.bit_length = 1 then i.bit_position else none⟩

/-- Follows the claim: the setter of an `out`/`mem` field. -/
def specSetter (base : Nat) (i : InOutMem) : Accessor :=
  ⟨true, "set_" ++ i.name, (base + i.offset) % 65536, specKind i.bit_length,
    if i.bit_length = 1 then i.bit_position else none⟩

/-- Follows the claim: devices in metadata order; for each, a getter per
`inp` field, a getter and a setter per `out` field, then per `mem` field,
fields in their maps' ascending key order. -/
def genSpec (devices : List Device) : List Accessor :=
  (devices.map fun d =>
    (btValues d.inp).map (specGetter d.offset) ++
      ((btValues d.out).map fun o => [specGetter d.offset o, specSetter d.offset o]).flatten ++
      ((btValues d.mem).map fun m => [specGetter d.offset m, specSetter d.offset m]).flatten).flatten

/-- On an accepted field the emitted getter is the claim's getter. -/
theorem get_fn_valid (mod_offset : Nat) (i : InOutMem) (h : validField i) :
    get_fn mod_offset i = .ok (specGetter mod_offset i) := by
  rcases h with ⟨h1, hbp⟩ | h8 | h16 | h32
  · obtain ⟨bp, hbp⟩ := Option.isSome_iff_exists.mp hbp
    simp [get_fn, specGetter, specKind, h1, hbp]
  · simp [get_fn, specGetter, specKind, h8]
  · simp [get_fn, specGetter, specKind, h16]
  · simp [get_fn, specGetter, specKind, h32]

/-- On an accepted field the emitted setter is the claim's setter. -/
theorem set_fn_valid (mod_offset : Nat) (i : InOutMem) (h : validField i) :
    set_fn mod_offset i = .ok (specSetter mod_offset i) := by
  rcases h with ⟨h1, hbp⟩ | h8 | h16 | h32
  · obtain ⟨bp, hbp⟩ := Option.isSome_iff_exists.mp hbp
    simp [set_fn, specSetter, specKind, h1, hbp]
  · simp [set_fn, specSetter, specKind, h8]
  · simp [set_fn, specSetter, specKind, h16]
  · simp [set_fn, specSetter, specKind, h32]

/-- A pointwise-ok traversal collects the images in order. -/
theorem mapO_ok_of_forall {α β : Type} (f : α → Outcome β) (g : α → β)
    (l : List α) (h : ∀ x ∈ l, f x = .ok (g x)) : mapO f l = .ok (l.map g) := by
  induction l with
  | nil => rfl
  | cons a l ih =>
      rw [List.map_cons, mapO, h a (List.mem_cons_self a l),
        ih fun x hx => h x (List.mem_cons_of_mem a hx)]
      rfl

/-- A panic in `o` propagates through `bind`. -/
theorem Outcome.bind_isOk {α β : Type} (o : Outcome α) (f : α → Outcome β)
    (h : (o.bind f).isOk = true) : o.isOk = true := by
  cases o with
  | ok a => rfl
  | panic m => rw [Outcome.bind] at h; cases h

/-- A traversal that did not panic did not panic on any element. -/
theorem mapO_isOk {α β : Type} (f : α → Outcome β) (l : List α)
    (h : (mapO f l).isOk = true) : ∀ x ∈ l, (f x).isOk = true := by
  induction l with
  | nil => intro x hx; cases hx
  | cons a l ih =>
      intro x hx
      rw [mapO] at h
      have hfa : (f a).isOk = true := Outcome.bind_isOk _ _ h
      rcases List.mem_cons.mp hx with rfl | hx'
      · exact hfa
      · rcases hfa' : f a with b | m
        · rw [hfa', Outcome.bind] at h
          exact ih (Outcome.bind_isOk _ _ h) x hx'
        · rw [hfa'] at hfa
          cases hfa

/-- A bit length outside 1/8/16/32 makes `get_fn` panic. -/
theorem get_fn_bad (mod_offset : Nat) (i : InOutMem) (h1 : i.bit_length ≠ 1)
    (h8 : i.bit_length ≠ 8) (h16 : i.bit_length ≠ 16)
    (h32 : i.bit_length ≠ 32) : (get_fn mod_offset i).isOk = false := by
  simp [get_fn, h1, h8, h16, h32, Outcome.isOk]

/-- C8 (amended): with every field's bit length in 1/8/16/32 (and a bit
position present on bit fields), the generator emits, in metadata order —
fields in ascending key order — a getter for every field and a setter only
for `out` and `mem` fields, each with the address literal
`(device_base_offset + field_offset_within_device) mod 2 ^ 16`; and if any
field's bit length lies outside 1/8/16/32, generation aborts. -/
theorem generator_emission (devices : List Device) :
    ((∀ d ∈ devices, ∀ i ∈ devFields d, validField i) →
      from_json devices = .ok (genSpec devices)) ∧
    ((∃ d ∈ devices, ∃ i ∈ devFields d, i.bit_length ≠ 1 ∧ i.bit_length ≠ 8 ∧
        i.bit_length ≠ 16 ∧ i.bit_length ≠ 32) →
      (from_json devices).isOk = false) := by
  constructor
  · intro h
    have hdev : ∀ d ∈ devices, devFns d = .ok
        ((btValues d.inp).map (specGetter d.offset) ++
          ((btValues d.out).map fun o =>
            [specGetter d.offset o, specSetter d.offset o]).flatten ++
          ((btValues d.mem).map fun m =>
            [specGetter d.offset m, specSetter d.offset m]).flatten) := by
      intro d hd
      have hi : ∀ i ∈ btValues d.inp, validField i := fun i hi =>
        h d hd i (by simp [devFields, hi])
      have ho : ∀ i ∈ btValues d.out, validField i := fun i hi =>
        h d hd i (by simp [devFields, hi])
      have hm : ∀ i ∈ btValues d.mem, validField i := fun i hi =>
        h d hd i (by simp [devFields, hi])
      rw [devFns,
        mapO_ok_of_forall (get_fn d.offset) (specGetter d.offset) _
          fun i hi' => get_fn_valid d.offset i (hi i hi'),
        mapO_ok_of_forall (getSetFns d.offset)
          (fun o => [specGetter d.offset o, specSetter d.offset o]) _
          fun i hi' => by
            rw [getSetFns, get_fn_valid d.offset i (ho i hi'), Outcome.bind,
              set_fn_valid d.offset i (ho i hi')]
            rfl,
        mapO_ok_of_forall (getSetFns d.offset)
          (fun m => [specGetter d.offset m, specSetter d.offset m]) _
          fun i hi' => by
            rw [getSetFns, get_fn_valid d.offset i (hm i hi'), Outcome.bind,
              set_fn_valid d.offset i (hm i hi')]
            rfl]
      rfl
    rw [from_json, mapO_ok_of_forall devFns _ devices hdev]
    rfl
  · intro ⟨d, hd, i, hi, h1, h8, h16, h32⟩
    rcases hok : (from_json devices).isOk with _ | _
    · rfl
    · exfalso
      rw [from_json] at hok
      have hdevs := mapO_isOk devFns devices
        (Outcome.bind_isOk _ _ hok) d hd
      rw [devFns] at hdevs
      have hbad := get_fn_bad d.offset i h1 h8 h16 h32
      rw [devFields, List.mem_append, List.mem_append] at hi
      rcases hi with (hi | hi) | hi
      · have := mapO_isOk _ _ (Outcome.bind_isOk _ _ hdevs) i hi
        rw [hbad] at this
        cases this
      · have h2 : (mapO (getSetFns d.offset) (btValues d.out)).isOk = true := by
          rcases hinp : mapO (get_fn d.offset) (btValues d.inp) with gi | m
          · rw [hinp, Outcome.bind] at hdevs
            exact Outcome.bind_isOk _ _ hdevs
          · rw [hinp, Outcome.bind] at hdevs
            cases hdevs
        have h3 := mapO_isOk _ _ h2 i hi
        rw [getSetFns] at h3
        have := Outcome.bind_isOk _ _ h3
        rw [hbad] at this
        cases this
      · have h2 : (mapO (getSetFns d.offset) (btValues d.mem)).isOk = true := by
          rcases hinp : mapO (get_fn d.offset) (btValues d.inp) with gi | m
          · rw [hinp, Outcome.bind] at hdevs
            rcases hout : mapO (getSetFns d.offset) (btValues d.out) with go | m'
            · rw [hout, Outcome.bind] at hdevs
              exact Outcome.bind_isOk _ _ hdevs
            · rw [hout, Outcome.bind] at hdevs
              cases hdevs
          · rw [hinp, Outcome.bind] at hdevs
            cases hdevs
        have h3 := mapO_isOk _ _ h2 i hi
        rw [getSetFns] at h3
        have := Outcome.bind_isOk _ _ h3
        rw [hbad] at this
        cases this

/-- Counterexample to C8 as stated: with a device base offset of 65536 and
a field offset of 0, the emitted address literal is
`(65536 + 0) as u16 = 0`, not the sum `device_base_offset +
field_offset_within_device = 65536`. -/
theorem generator_address_literal_truncated :
    from_json [⟨"", "", "BASE", 95, 0, "dev", "", 0, 0, "", 65536,
        [(0, ⟨"f", 0, 8, 0, true, 0, "", none⟩)], [], [], none⟩] =
      .ok [⟨false, "get_f", 0, .byte, none⟩] ∧ (65536 : Nat) + 0 ≠ 0 := by
  constructor
  · rfl
  · decide

/-- A device whose fields the generator accepts. -/
def devGood : Device :=
  ⟨"", "", "BASE", 95, 0, "dev", "", 0, 0, "", 16,
    [(0, ⟨"in1", 0, 8, 0, true, 0, "", none⟩)],
    [(0, ⟨"out1", 0, 1, 1, true, 1, "", some 2⟩),
      (1, ⟨"out2", 0, 16, 2, true, 2, "", none⟩)],
    [(0, ⟨"mem1", 0, 32, 4, true, 3, "", none⟩)], none⟩

/-- The field with the unsupported bit length 7. -/
def fieldBad : InOutMem := ⟨"b", 0, 7, 0, true, 0, "", none⟩

/-- A device containing `fieldBad`. -/
def devBad : Device :=
  ⟨"", "", "BASE", 95, 0, "dev", "", 0, 0, "", 0,
    [(0, fieldBad)], [], [], none⟩

/-- Witness for C8: the generator emits the claim's functions for
`devGood` and aborts on `devBad`. -/
theorem generator_emission_witness :
    from_json [devGood] = .ok (genSpec [devGood]) ∧
    (from_json [devBad]).isOk = false :=
  ⟨(generator_emission [devGood]).1 (by decide),
    (generator_emission [devBad]).2
      ⟨devBad, by decide, fieldBad, by decide, by decide, by decide, by decide,
        by decide⟩⟩

/-- Decimal digits of `n`, most significant first — the digits printed by
`format!("{}", n)`. -/
def decDigits (n : Nat) : List Nat :=
  if n = 0 then [0] else (Nat.digits 10 n).reverse

/-- The character of one decimal digit. -/
def digitChar (d : Nat) : Char := Char.ofNat (48 + d)

/-- Embeds `format!("{}", n)` for an unsigned integer. -/
def fmtNat (n : Nat) : String := String.mk ((decDigits n).map digitChar)

/-- Embeds `format!("{:0>4}", n)`: the decimal digits left-padded with `'0'` to a
width of at least 4. -/
def fmtPad4 (n : Nat) : String :=
  String.mk (List.replicate (4 - (decDigits n).length) '0' ++
    (decDigits n).map digitChar)

/-- Modelled from the spec: the decimal value of one character, as used by
std's `FromStr` for unsigned integers. -/
def charDigit (c : Char) : Option Nat :=
  if 48 ≤ c.toNat ∧ c.toNat ≤ 57 then some (c.toNat - 48) else none

/-- Modelled from the spec: digit values of a character list; any
non-digit character fails the parse. -/
def parseDigits : List Char → Option (List Nat)
  | [] => some []
  | c :: cs =>
      match charDigit c, parseDigits cs with
      | some d, some ds => some (d :: ds)
      | _, _ => none

/-- Modelled from the spec: std's `str::parse` for an unsigned integer —
the empty string is rejected, otherwise the decimal value of the digits
(a leading `+`, which no serializer here emits, is omitted from the
model). -/
def parseNatStr (s : String) : Option Nat :=
  if s.data = [] then none
  else (parseDigits s.data).map (List.foldl (fun a d => 10 * a + d) 0)

/-- Modelled from the spec: `str::parse::<uN>`, failing when the value
overflows the type's bound (`IVisitor` / `de_str_i` in
revpi_rsc/src/util.rs delegate to this). -/
def parseBounded (bound : Nat) (s : String) : Option Nat :=
  (parseNatStr s).bind fun n => if n < bound then some n else none

/-- Embeds `OptIVisitor` / `de_str_opt_i` (revpi_rsc/src/util.rs): the empty
string is `None`, anything else parses as the integer. -/
def de_str_opt_u8 (s : String) : Option (Option Nat) :=
  if s = "" then some none else (parseBounded 256 s).map some

/-- One serialized JSON scalar of the `InOutMem` tuple. -/
inductive JVal where
  | str (s : String)
  | bool (b : Bool)
deriving DecidableEq, Repr

/-- The eighth tuple element: `bit_position` stringified, or the empty
string when absent (the `if let` arm in `Serialize for InOutMem`). -/
def serBitPos : Option Nat → String
  | some bp => fmtNat bp
  | none => ""

/-- Embeds `impl Serialize for InOutMem` (revpi_rsc/src/lib.rs): an 8-tuple of
name, stringified `default`, `bit_length` and `offset`, the plain bool
`exported`, `sort_pos` zero-padded to 4 digits (rejected above 9999), the
comment, and `bit_position` stringified or empty when absent. -/
def serInOutMem (m : InOutMem) : Except String (List JVal) :=
  if m.sort_pos ≤ 9999 then
    .ok [.str m.name, .str (fmtNat m.default), .str (fmtNat m.bit_length),
      .str (fmtNat m.offset), .bool m.exported, .str (fmtPad4 m.sort_pos),
      .str m.comment, .str (serBitPos m.bit_position)]
  else .error "i must not be bigger than 9999"

/-- The derived `Deserialize` of `InOutMem` with the custom `de_str_i` /
`de_str_opt_i` field deserializers: an 8-element tuple whose integer
fields are parsed from strings (`u64`, `u8`, `u64`, `u16`, optional
`u8`). -/
def deInOutMem (js : List JVal) : Option InOutMem :=
  match js with
  | [.str n, .str d, .str bl, .str off, .bool e, .str sp, .str c, .str bp] =>
      match parseBounded (2 ^ 64) d, parseBounded 256 bl,
        parseBounded (2 ^ 64) off, parseBounded 65536 sp,
        de_str_opt_u8 bp with
      | some dv, some blv, some offv, some spv, some bpv =>
          some ⟨n, dv, blv, offv, e, spv, c, bpv⟩
      | _, _, _, _, _ => none
  | _ => none

/-- The printed digit list is never empty. -/
theorem decDigits_ne_nil (n : Nat) : decDigits n ≠ [] := by
  unfold decDigits
  split
  · simp
  · rw [Ne, List.reverse_eq_nil_iff]
    exact Nat.digits_ne_nil_iff_ne_zero.mpr (by assumption)

/-- Every printed digit is below 10. -/
theorem decDigits_lt (n : Nat) : ∀ d ∈ decDigits n, d < 10 := by
  intro d hd
  unfold decDigits at hd
  split at hd
  · simp at hd
    omega
  · rw [List.mem_reverse] at hd
    exact Nat.digits_lt_base (by norm_num) hd

/-- Folding the printed digits most-significant-first recovers the
number. -/
theorem foldl_decDigits (n : Nat) :
    (decDigits n).foldl (fun a d => 10 * a + d) 0 = n := by
  unfold decDigits
  split
  · simp [*]
  · rw [List.foldl_reverse]
    have hof : ∀ l : List Nat,
        l.foldr (fun x y => 10 * y + x) 0 = Nat.ofDigits 10 l := by
      intro l
      induction l with
      | nil => simp [Nat.ofDigits_nil]
      | cons a l ih =>
          rw [List.foldr_cons, ih, Nat.ofDigits_cons]
          ring
    rw [hof, Nat.ofDigits_digits]

/-- A decimal digit's character parses back to the digit. -/
theorem charDigit_digitChar : ∀ d, d < 10 → charDigit (digitChar d) = some d := by
  decide

/-- Parsing the printed characters of a digit list recovers the list. -/
theorem parseDigits_map_digitChar (l : List Nat) (h : ∀ d ∈ l, d < 10) :
    parseDigits (l.map digitChar) = some l := by
  induction l with
  | nil => rfl
  | cons a l ih =>
      rw [List.map_cons]
      simp only [parseDigits,
        charDigit_digitChar a (h a (List.mem_cons_self a l)),
        ih fun d hd => h d (List.mem_cons_of_mem a hd)]

/-- Parsing inverts `format!("{}")`: `str::parse` of the printed string. -/
theorem parseNatStr_fmtNat (n : Nat) : parseNatStr (fmtNat n) = some n := by
  rw [parseNatStr]
  rw [if_neg (by
    show ¬ (String.mk ((decDigits n).map digitChar)).data = []
    simp [decDigits_ne_nil n])]
  show ((parseDigits ((decDigits n).map digitChar)).map
    (List.foldl (fun a d => 10 * a + d) 0)) = some n
  rw [parseDigits_map_digitChar _ (decDigits_lt n)]
  show some ((decDigits n).foldl (fun a d => 10 * a + d) 0) = some n
  rw [foldl_decDigits]

/-- Leading `'0'` characters parse to leading zero digits. -/
theorem parseDigits_replicate_zero (k : Nat) (cs : List Char) :
    parseDigits (List.replicate k '0' ++ cs) =
      (parseDigits cs).map (List.replicate k 0 ++ ·) := by
  induction k with
  | zero => simp
  | succ k ih =>
      have h0 : charDigit '0' = some 0 := by decide
      rw [List.replicate_succ, List.cons_append]
      simp only [parseDigits, h0, ih]
      cases parseDigits cs <;> rfl

/-- Leading zero digits do not change the folded value. -/
theorem foldl_replicate_zero (k : Nat) (ds : List Nat) :
    (List.replicate k 0 ++ ds).foldl (fun a d => 10 * a + d) 0 =
      ds.foldl (fun a d => 10 * a + d) 0 := by
  induction k with
  | zero => rfl
  | succ k ih =>
      simpa [List.replicate_succ, List.cons_append, List.foldl_cons] using ih

/-- Parsing inverts the zero-padded `format!("{:0>4}")`. -/
theorem parseNatStr_fmtPad4 (n : Nat) : parseNatStr (fmtPad4 n) = some n := by
  rw [parseNatStr]
  rw [if_neg (by
    show ¬ (String.mk (List.replicate (4 - (decDigits n).length) '0' ++
      (decDigits n).map digitChar)).data = []
    simp [decDigits_ne_nil n])]
  show ((parseDigits (List.replicate (4 - (decDigits n).length) '0' ++
      (decDigits n).map digitChar)).map
    (List.foldl (fun a d => 10 * a + d) 0)) = some n
  rw [parseDigits_replicate_zero,
    parseDigits_map_digitChar _ (decDigits_lt n)]
  have h1 : Option.map (List.foldl (fun a d => 10 * a + d) 0)
      (Option.map (fun x => List.replicate (4 - (decDigits n).length) 0 ++ x)
        (some (decDigits n))) =
      some ((List.replicate (4 - (decDigits n).length) 0 ++
        decDigits n).foldl (fun a d => 10 * a + d) 0) := rfl
  rw [h1, foldl_replicate_zero, foldl_decDigits]

/-- The bounded parse inverts `format!("{}")` below the bound. -/
theorem parseBounded_fmtNat (bound n : Nat) (h : n < bound) :
    parseBounded bound (fmtNat n) = some n := by
  simp [parseBounded, parseNatStr_fmtNat, h]

/-- The bounded parse inverts `format!("{:0>4}")` below the bound. -/
theorem parseBounded_fmtPad4 (bound n : Nat) (h : n < bound) :
    parseBounded bound (fmtPad4 n) = some n := by
  simp [parseBounded, parseNatStr_fmtPad4, h]

/-- Printing `format!("{}")` never yields the empty string. -/
theorem fmtNat_ne_empty (n : Nat) : fmtNat n ≠ "" := by
  intro h
  have hdata := congrArg String.data h
  simp only [fmtNat] at hdata
  rw [List.map_eq_nil_iff] at hdata
  exact decDigits_ne_nil n hdata

/-- Deserializing the serialized form of an optional `u8` recovers it. -/
theorem de_str_opt_u8_round (o : Option Nat) (h : ∀ bp ∈ o, bp < 256) :
    de_str_opt_u8 (serBitPos o) = some o := by
  cases o with
  | none => rfl
  | some b =>
      have hb : b < 256 := h b rfl
      show de_str_opt_u8 (fmtNat b) = some (some b)
      rw [de_str_opt_u8, if_neg (fmtNat_ne_empty b), parseBounded_fmtNat _ _ hb]
      rfl

/-- C10: serializing an `InOutMem` record with `sort_pos ≤ 9999` and
deserializing the resulting tuple yields the original record — the
integers round-trip through their decimal string encodings, `sort_pos`
through its zero-padded 4-digit encoding, an absent `bit_position` through
the empty string — and serializing a record with `sort_pos > 9999` fails
with an error. -/
theorem inoutmem_serde_round_trip (m : InOutMem) (hd : m.default < 2 ^ 64)
    (hb : m.bit_length < 256) (ho : m.offset < 2 ^ 64)
    (hbp : ∀ bp ∈ m.bit_position, bp < 256) :
    (m.sort_pos ≤ 9999 →
      Except.map deInOutMem (serInOutMem m) = .ok (some m)) ∧
    (9999 < m.sort_pos →
      serInOutMem m = .error "i must not be bigger than 9999") := by
  constructor
  · intro hsp
    have hsp' : m.sort_pos < 65536 := by omega
    rw [serInOutMem, if_pos hsp]
    rw [show ∀ js, Except.map deInOutMem
      (Except.ok (ε := String) js) = .ok (deInOutMem js) from fun _ => rfl]
    simp only [deInOutMem, parseBounded_fmtNat _ _ hd,
      parseBounded_fmtNat _ _ hb, parseBounded_fmtNat _ _ ho,
      parseBounded_fmtPad4 _ _ hsp', de_str_opt_u8_round m.bit_position hbp]
  · intro hsp
    rw [serInOutMem, if_neg (by omega)]

/-- Witness for C10: the test-suite record round-trips, and a `sort_pos`
of 10000 makes serialization fail. -/
theorem inoutmem_serde_round_trip_witness :
    Except.map deInOutMem
        (serInOutMem ⟨"RevPiStatus", 8, 8, 16, true, 3, "a comment", some 0⟩) =
      .ok (some ⟨"RevPiStatus", 8, 8, 16, true, 3, "a comment", some 0⟩) ∧
    serInOutMem ⟨"RevPiStatus", 8, 8, 16, true, 10000, "a comment", none⟩ =
      .error "i must not be bigger than 9999" :=
  ⟨(inoutmem_serde_round_trip ⟨"RevPiStatus", 8, 8, 16, true, 3, "a comment",
        some 0⟩ (by norm_num) (by norm_num) (by norm_num)
        (by intro bp hbp; simp at hbp; omega)).1 (by norm_num),
    (inoutmem_serde_round_trip ⟨"RevPiStatus", 8, 8, 16, true, 10000,
        "a comment", none⟩ (by norm_num) (by norm_num) (by norm_num)
        (by intro bp hbp; simp at hbp)).2 (by norm_num)⟩
